import Mathlib

/-!
Verification development for the AIRA research-assistant pipeline
(`src/aira/src/aiq_aira`).  The Python functions that the claims are about
are shallowly embedded as executable Lean definitions: pure string/list
manipulation is translated directly, provider calls (LLM, RAG, Tavily) are
abstracted as explicit input data, and Python code paths that raise
exceptions are modelled with `Option` (`none` = the call raised).
-/

namespace Aira

/-! ### String helpers (Python `in`, `re.sub` with a literal pattern, `"\n".join`) -/

/-- `startsWithL s pat`: the char list `s` starts with `pat`. -/
def startsWithL : List Char → List Char → Bool
  | _, [] => true
  | [], _ :: _ => false
  | c :: cs, p :: ps => c == p && startsWithL cs ps

/-- Substring containment on char lists; models Python `pat in s`. -/
def containsSubL : List Char → List Char → Bool
  | [], pat => pat.isEmpty
  | c :: cs, pat => startsWithL (c :: cs) pat || containsSubL cs pat

/-- Python `pat in s` for strings. -/
def strContains (s pat : String) : Bool :=
  containsSubL s.data pat.data

/-- Replace every (leftmost, non-overlapping) occurrence of `pat` by `rep`;
models `re.sub` with a literal pattern such as `'QUERY:'`.  `fuel` bounds the
number of scanning steps; each step consumes at least one char of `s`, so any
`fuel ≥ s.length` gives the exact replace-all semantics. -/
def replaceAllGo (pat rep : List Char) : Nat → List Char → List Char
  | 0, s => s
  | _ + 1, [] => []
  | fuel + 1, c :: cs =>
    if !pat.isEmpty && startsWithL (c :: cs) pat then
      rep ++ replaceAllGo pat rep fuel (List.drop pat.length (c :: cs))
    else
      c :: replaceAllGo pat rep fuel cs

/-- `re.sub(pat, rep, s)` for a literal pattern. -/
def pySub (pat rep s : String) : String :=
  ⟨replaceAllGo pat.data rep.data s.data.length s.data⟩

/-- Python `"\n".join(xs)`. -/
def joinNewline : List String → String
  | [] => ""
  | s :: rest =>
    match rest with
    | [] => s
    | _ :: _ => s ++ "\n" ++ joinNewline rest

/-- Split on a (non-empty) separator, Python `s.split(sep)` semantics;
`acc` holds the chars of the current field in reverse, and `fuel ≥ s.length`
makes the scan exact (each step consumes at least one char). -/
def splitOnGo (sep : List Char) : Nat → List Char → List Char → List (List Char)
  | 0, _, acc => [acc.reverse]
  | _ + 1, [], acc => [acc.reverse]
  | fuel + 1, c :: cs, acc =>
    if !sep.isEmpty && startsWithL (c :: cs) sep then
      acc.reverse :: splitOnGo sep fuel (List.drop sep.length (c :: cs)) []
    else
      splitOnGo sep fuel cs (c :: acc)

/-- Python `s.split(sep)` for a non-empty separator. -/
def pySplit (s sep : String) : List String :=
  (splitOnGo sep.data s.data.length s.data []).map fun l => ⟨l⟩

/-- Python whitespace as stripped by `str.strip()`. -/
def isPySpace (c : Char) : Bool :=
  c == ' ' || c == '\t' || c == '\n' || c == '\r' || c == '\x0b' || c == '\x0c'

/-- Python `s.strip()`. -/
def pyStrip (s : String) : String :=
  ⟨(((s.data.dropWhile isPySpace).reverse).dropWhile isPySpace).reverse⟩

/-! ### JSON values

`parse_json_markdown` (langchain) returns arbitrary Python/JSON values; the
pipeline only ever inspects string-valued fields of objects, so the embedding
keeps strings and objects (association lists). -/

inductive JsonValue where
  | jstr : String → JsonValue
  | jobj : List (String × JsonValue) → JsonValue

/-- First-match association-list lookup; Python dict keys are unique so this
is dict indexing. -/
def lookupField : List (String × JsonValue) → String → Option JsonValue
  | [], _ => none
  | (k, v) :: rest, key => if k == key then some v else lookupField rest key

/-- Python `v[key]` where a missing key raises `KeyError` and a non-dict `v`
raises `TypeError`; both error paths are `none`. -/
def jsonGet (v : JsonValue) (key : String) : Option JsonValue :=
  match v with
  | .jobj fields => lookupField fields key
  | .jstr _ => none

/-- Python `v == s` for a string literal `s`: true only when `v` is that
string. -/
def jsonIsStr (v : JsonValue) (s : String) : Bool :=
  match v with
  | .jstr t => t == s
  | .jobj _ => false

/-! ### Data model (`schema.py`) -/

/-- `GeneratedQuery` from `schema.py`. -/
structure GeneratedQuery where
  query : String
  report_section : String
  rationale : String
deriving DecidableEq

/-- `Section` as constructed in `nodes.py` `web_research` (lines 205-211). -/
structure Section where
  name : String
  description : String
  plan : String
  research : Bool
  content : String
deriving DecidableEq

/-! ### Relevancy gate (`search_utils.py` `check_relevancy`, lines 20-58) -/

/-- Outcome of the guarded block inside `check_relevancy`: the provider call
plus `parse_json_markdown` either times out (`asyncio.TimeoutError`), raises
some other exception (provider error or malformed JSON), or produces a parsed
value. -/
inductive LLMOutcome where
  | timeout
  | raisedError
  | parsed : JsonValue → LLMOutcome

/-- The fail-open default `{"score": "yes"}`. -/
def scoreYesDefault : JsonValue := .jobj [("score", .jstr "yes")]

/-- `check_relevancy`: returns the parsed value on success and the fail-open
default on `asyncio.TimeoutError` or any other exception. -/
def check_relevancy : LLMOutcome → JsonValue
  | .timeout => scoreYesDefault
  | .raisedError => scoreYesDefault
  | .parsed v => v

/-! ### Web search fallback (`search_utils.py` `process_single_query`,
lines 144-194) -/

/-- One Tavily result entry `{content, url, score}`; `score` is `none` when
the dict has no `'score'` key (`'score' in res` is false). -/
structure WebResult where
  content : String
  url : String
  score : Option ℚ

/-- `'score' in res and float(res['score']) > 0.6`. -/
def tavilyPasses (r : WebResult) : Bool :=
  match r.score with
  | some s => decide ((0.6 : ℚ) < s)
  | none => false

/-- The `web_answers` list comprehension (lines 154-157). -/
def webAnswerEntries (results : List WebResult) : List String :=
  results.map fun res => if tavilyPasses res then res.content else ""

/-- The `web_citations` list comprehension (lines 159-169). -/
def webCitationEntries (results : List WebResult) : List String :=
  results.map fun res =>
    if tavilyPasses res then
      "\nANSWER: \n" ++ res.content ++ "\n\nCITATION: \n" ++ res.url ++ "\n"
    else ""

/-- Python truthiness of `re.fullmatch(r"\n*", web_answer)`: every char of
the string is a newline (vacuously true for the empty string). -/
def allNewlines (s : String) : Bool :=
  s.data.all fun c => c == '\n'

/-- The web-search part of `process_single_query` (lines 144-194): given the
query, the `search_web` flag, the relevancy value and the list the web-search
provider would return, produce the `(web_answer, web_citation)` pair.
`none` models the `KeyError`/`TypeError` Python raises when
`relevancy["score"]` is not available. -/
def process_single_query_web (query : String) (searchWeb : Bool)
    (relevancy : JsonValue) (tavilyResult : List WebResult) :
    Option (Option String × Option String) :=
  if searchWeb then
    match jsonGet relevancy "score" with
    | none => none
    | some sv =>
      -- `result = await search_tavily(...)` when score is "no", else `await dummy()` (None)
      let result : Option (List WebResult) :=
        if jsonIsStr sv "no" then some tavilyResult else none
      match result with
      | some rs =>
        let web_answer := joinNewline (webAnswerEntries rs)
        let web_answers_citations := joinNewline (webCitationEntries rs)
        let web_citation := "\n---\nQUERY: \n" ++ query ++ "\n" ++ web_answers_citations
        if allNewlines web_answer then
          some (some "No relevant result found in web search", some "")
        else
          some (some web_answer, some web_citation)
      | none =>
        some (some "Web not searched since RAG provided relevant answer for query", some "")
  else
    some (none, none)

/-! ### Sources document (`search_utils.py` `deduplicate_and_format_sources`,
lines 77-112) -/

/-- One `<source>` element of the `<sources>` XML document: sub-elements
`<query>`, `<answer>`, `<section>`, `<citation>`. -/
structure SourceElem where
  query : String
  answer : String
  «section» : String
  citation : String
deriving DecidableEq

/-- `deduplicate_and_format_sources`: zips the five lists (truncating at the
shortest, like Python `zip`) and selects the effective answer:
`gen_ans` when `relevant_info["score"] == "yes"` or `fallback_ans is None`,
otherwise `fallback_ans`.  `none` models the exception raised when
`relevant_info["score"]` is unavailable. -/
def deduplicate_and_format_sources :
    List String → List String → List JsonValue → List (Option String) →
    List GeneratedQuery → Option (List SourceElem)
  | src :: sources, gen_ans :: gas, relevant_info :: rels,
      fallback_ans :: fbs, q_json :: qs =>
    match jsonGet relevant_info "score" with
    | none => none
    | some sv =>
      let answer :=
        if jsonIsStr sv "yes" then gen_ans
        else match fallback_ans with
          | none => gen_ans
          | some fb => fb
      match deduplicate_and_format_sources sources gas rels fbs qs with
      | none => none
      | some rest =>
        some ({ query := q_json.query, answer := answer,
                «section» := q_json.report_section, citation := src } :: rest)
  | _, _, _, _, _ => some []

/-! ### Citation pipeline of `web_research` (`nodes.py` lines 138-215) -/

/-- Per-query data used by the citation loop of `web_research`:
`queries[idx]`, `citations[idx]` (rag citation, `None` already mapped to
`""`), `relevancy_list[idx]` and `citations_web[idx]` (web citation, `None`
already mapped to `""`). -/
structure CitationInput where
  query : String
  citation : String
  relevancy : JsonValue
  citationWeb : String

/-- The placeholder block appended when the rag answer was irrelevant and the
web citation is `"N/A"` or `""` (`nodes.py` lines 166-175). -/
def noAnswerBlock (query : String) : String :=
  "\n---\nQUERY:\n" ++ query ++ "\n\nANSWER:\nNo relevant answer found in sources\n\n"

/-- The `all_citations` loop (`nodes.py` lines 160-175): for each index, one
of three guarded appends fires.  `none` models the exception Python raises
when `relevancy_list[idx]["score"]` is unavailable. -/
def buildAllCitations : List CitationInput → Option (List String)
  | [] => some []
  | p :: rest =>
    match jsonGet p.relevancy "score" with
    | none => none
    | some sv =>
      match buildAllCitations rest with
      | none => none
      | some tail =>
        some (((if jsonIsStr sv "yes" then [p.citation] else []) ++
          (if !jsonIsStr sv "yes" && !(p.citationWeb == "N/A" || p.citationWeb == "")
            then [p.citationWeb] else []) ++
          (if !jsonIsStr sv "yes" && (p.citationWeb == "N/A" || p.citationWeb == "")
            then [noAnswerBlock p.query] else [])) ++ tail)

/-- The numbering loop (`nodes.py` lines 177-181): each citation block gets
`re.sub(r'QUERY:', f'SOURCE {global_source_counter} QUERY:', citation)` and
the counter is incremented once per block.  The id spliced into the text is
also kept as the first component of the pair. -/
def numberCitations (counter : Nat) : List String → List (Nat × String) × Nat
  | [] => ([], counter)
  | citation :: rest =>
    ((counter,
        pySub "QUERY:" ("SOURCE " ++ toString counter ++ " QUERY:") citation)
      :: (numberCitations (counter + 1) rest).1,
     (numberCitations (counter + 1) rest).2)

/-- Citation part of `web_research` (`nodes.py` lines 160-186): builds
`all_citations`, numbers them from `state.source_counter`, joins with
newlines and prepends the existing citation document when it is non-empty
(Python truthiness of `state.citations`; `None` behaves as `""`).  Returns
the numbered blocks, the updated `citations` string and the advanced
counter. -/
def webResearchCitations (source_counter : Nat) (existing_citations : String)
    (inputs : List CitationInput) :
    Option (List (Nat × String) × String × Nat) :=
  match buildAllCitations inputs with
  | none => none
  | some all_citations =>
    some ((numberCitations source_counter all_citations).1,
      (if existing_citations ≠ "" then
        existing_citations ++ "\n" ++
          joinNewline ((numberCitations source_counter all_citations).1.map Prod.snd)
      else
        joinNewline ((numberCitations source_counter all_citations).1.map Prod.snd)),
      (numberCitations source_counter all_citations).2)

/-- Counter threading across successive `web_research` batches in one run
(the langgraph loop re-enters `web_research` with the `source_counter`
returned by the previous batch). -/
def runBatches (c : Nat) : List (List String) → List (Nat × String) × Nat
  | [] => ([], c)
  | b :: bs =>
    ((numberCitations c b).1 ++ (runBatches (numberCitations c b).2 bs).1,
     (runBatches (numberCitations c b).2 bs).2)

/-- One step of the `unique_sections` loop of `web_research` (`nodes.py`
lines 200-211): if the query's `report_section` is already a key, keep the
dict; otherwise append a fresh empty `Section` under that key. -/
def addSection (acc : List Section) (q : GeneratedQuery) : List Section :=
  if acc.any (fun s => s.name == q.report_section) then acc
  else acc ++ [{ name := q.report_section, description := "", plan := "",
                 research := false, content := "" }]

/-- The `unique_sections` loop of `web_research` (`nodes.py` lines 200-214):
a dict keyed by section name with insertion order, then `list(values())`. -/
def buildSections (queries : List GeneratedQuery) : List Section :=
  queries.foldl addSection []

/-- Names in order of first appearance, one entry per distinct name (the
spec's "map semantics"); `seen` accumulates names already emitted. -/
def dedupFirstAux (seen : List String) : List String → List String
  | [] => []
  | n :: ns =>
    if seen.any (fun m => m == n) then dedupFirstAux seen ns
    else n :: dedupFirstAux (seen ++ [n]) ns

/-! ### Merge policy of `summarize_sources` (`nodes.py` lines 317-321) -/

/-- Python `list.insert(-1, x)`: insert `x` just before the last element
(for the empty list, `insert(-1, x)` produces `[x]`). -/
def insertBeforeLast : List String → String → List String
  | [], x => [x]
  | a :: rest, x =>
    match rest with
    | [] => [x, a]
    | _ :: _ => a :: insertBeforeLast rest x

/-- The merge of newly drafted section contents into `filled_sections`
(`nodes.py` lines 317-321): when the existing report is non-empty and more
than two sections were drafted, each drafted middle element
(`updated_report[1:-1]`) is inserted before the last existing element;
otherwise the drafted contents are appended. -/
def mergeSections (existing_report updated_report : List String) : List String :=
  if existing_report.length ≠ 0 ∧ 2 < updated_report.length then
    ((updated_report.drop 1).dropLast).foldl insertBeforeLast existing_report
  else
    existing_report ++ updated_report

/-! ### Controller decision (`nodes.py` `check_final_summary`,
lines 329-335) -/

/-- `check_final_summary`: routes to `finalize_summary` iff the query batch
is non-empty and `"Reflection-based query" in queries[0].rationale`. -/
def check_final_summary (queries : List GeneratedQuery) : String :=
  match queries with
  | [] => "reflect_on_summary"
  | q :: _ =>
    if strContains q.rationale "Reflection-based query" then "finalize_summary"
    else "reflect_on_summary"

/-! ### Reflection loop (`nodes.py` `reflect_on_summary`, lines 338-413) -/

mutual

/-- Models Python `repr` on parsed JSON values (dict/str); only used for the
`str(reflection_obj)` fallback, no claim depends on the exact text. -/
def pyRepr : JsonValue → String
  | .jstr s => "'" ++ s ++ "'"
  | .jobj fields => "\x7b" ++ pyReprFields fields ++ "\x7d"

def pyReprFields : List (String × JsonValue) → String
  | [] => ""
  | [(k, v)] => "'" ++ k ++ "': " ++ pyRepr v
  | (k, v) :: rest@(_ :: _) => "'" ++ k ++ "': " ++ pyRepr v ++ ", " ++ pyReprFields rest

end

/-- Models Python `str`: identity on strings, `repr` on dicts. -/
def pyStr : JsonValue → String
  | .jstr s => s
  | v => pyRepr v

/-- The `GeneratedQuery` construction of one reflection iteration
(`nodes.py` lines 395-410).  `parsed` is the outcome of
`parse_json_markdown(reflection_json)` (`none` = it raised); any exception
inside the `try` block (missing `report_section` key, non-string field
values, string indexing) falls to the `except` branch which uses the raw
`reflection_json` text for both fields.  Every branch tags the query with
rationale `"Reflection-based query"`. -/
def mkReflectionQuery (parsed : Option JsonValue) (reflection_json : String) :
    GeneratedQuery :=
  match parsed with
  | none =>
    { query := reflection_json, report_section := reflection_json,
      rationale := "Reflection-based query" }
  | some obj =>
    match obj with
    | .jobj fields =>
      match lookupField fields "query" with
      | some (.jstr q) =>
        (match lookupField fields "report_section" with
         | some (.jstr rs) =>
           { query := q, report_section := rs,
             rationale := "Reflection-based query" }
         | _ =>
           -- KeyError on `reflection_obj["report_section"]` or pydantic
           -- validation error: `except` branch
           { query := reflection_json, report_section := reflection_json,
             rationale := "Reflection-based query" })
      | some _ =>
        -- `reflection_obj["query"]` is not a string: pydantic raises
        { query := reflection_json, report_section := reflection_json,
          rationale := "Reflection-based query" }
      | none =>
        -- `"query" in reflection_obj` is false: both fields get `str(obj)`
        { query := pyStr obj, report_section := pyStr obj,
          rationale := "Reflection-based query" }
    | .jstr s =>
      if strContains s "query" then
        -- `s["query"]` raises TypeError: `except` branch
        { query := reflection_json, report_section := reflection_json,
          rationale := "Reflection-based query" }
      else
        { query := s, report_section := s,
          rationale := "Reflection-based query" }

/-- The reflection loop (`nodes.py` lines 355-413): `outputs` lists the raw
streamed provider text of each of the `num_reflections` iterations and
`parseJson` models `parse_json_markdown`.  Each iteration splits its output
on `"</think>"`; when there is no delimiter the node returns early with only
the current report and **no queries** (`none`); otherwise the query built
from `splitted[1].strip()` is appended. -/
def reflect_on_summary (outputs : List String)
    (parseJson : String → Option JsonValue) : Option (List GeneratedQuery) :=
  match outputs with
  | [] => some []
  | result :: rest =>
    let splitted := pySplit result "</think>"
    if splitted.length < 2 then none
    else
      let reflection_json := pyStrip (splitted.getD 1 "")
      match reflect_on_summary rest parseJson with
      | none => none
      | some qs =>
        some (mkReflectionQuery (parseJson reflection_json) reflection_json :: qs)

/-! ### Concurrent fan-out (`nodes.py` lines 147-157)

`web_research` dispatches `process_single_query` for every query with
`asyncio.gather`, which resolves the awaitables concurrently but returns
their results indexed by task position.  The model: tasks finish in an
arbitrary completion order (a permutation of the task indices), and the
collected output places the result of task `i` at position `i`. -/

/-- The result slot of task `i` in a completion log. -/
def lookupTask {α : Type} (i : Nat) : List (Nat × α) → Option α
  | [] => none
  | (j, r) :: rest => if j = i then some r else lookupTask i rest

/-- Models `asyncio.gather` over `n` tasks: given the completion log (pairs
of task index and task result, in completion order), collect the results in
task order.  `none` would mean a task never completed. -/
def gatherCollect {α : Type} (n : Nat) (completed : List (Nat × α)) :
    Option (List α) :=
  go (List.range n)
where
  go : List Nat → Option (List α)
    | [] => some []
    | i :: is =>
      match lookupTask i completed, go is with
      | some r, some rs => some (r :: rs)
      | _, _ => none

/-- The tuple returned by `process_single_query`:
`(rag_answer, rag_citation, relevancy, web_answer, web_citation)`. -/
structure SingleQueryResult where
  rag_answer : String
  rag_citation : Option String
  relevancy : JsonValue
  web_answer : Option String
  web_citation : Option String

/-! ## Helper lemmas -/

theorem numberCitations_spec (l : List String) (c : Nat) :
    (numberCitations c l).1.map Prod.fst = List.range' c l.length ∧
    (numberCitations c l).2 = c + l.length := by
  induction l generalizing c with
  | nil => simp [numberCitations]
  | cons x t ih =>
    refine ⟨?_, ?_⟩
    · simp only [numberCitations, List.map_cons, List.length_cons,
        (ih (c + 1)).1, List.range'_succ]
    · simp only [numberCitations, List.length_cons, (ih (c + 1)).2]
      omega

theorem runBatches_spec (bs : List (List String)) (c : Nat) :
    (runBatches c bs).1.map Prod.fst = List.range' c ((bs.map List.length).sum) ∧
    (runBatches c bs).2 = c + (bs.map List.length).sum := by
  induction bs generalizing c with
  | nil => simp [runBatches]
  | cons b bs ih =>
    have h1 := numberCitations_spec b c
    have h2 := ih (c + b.length)
    refine ⟨?_, ?_⟩
    · rw [show (runBatches c (b :: bs)).1
          = (numberCitations c b).1 ++ (runBatches (numberCitations c b).2 bs).1
          from rfl]
      rw [List.map_append, h1.1, h1.2, h2.1, List.map_cons, List.sum_cons]
      rw [Nat.add_comm b.length ((bs.map List.length).sum)]
      exact List.range'_append_1 c b.length ((bs.map List.length).sum)
    · rw [show (runBatches c (b :: bs)).2
          = (runBatches (numberCitations c b).2 bs).2 from rfl]
      rw [h1.2, h2.2, List.map_cons, List.sum_cons]
      omega

/-! ## Claim theorems -/

/-- C1: for every pipeline state reaching the decision point after the Write
stage, if the query batch is non-empty and the first query's rationale
contains `"Reflection-based query"`, `check_final_summary` routes to
`finalize_summary`; for any other rationale of the first query it routes to
`reflect_on_summary`. -/
theorem check_final_summary_first_query_routing
    (queries : List GeneratedQuery) (h : queries ≠ []) :
    (strContains (queries.headD ⟨"", "", ""⟩).rationale "Reflection-based query" = true →
      check_final_summary queries = "finalize_summary") ∧
    (strContains (queries.headD ⟨"", "", ""⟩).rationale "Reflection-based query" = false →
      check_final_summary queries = "reflect_on_summary") := by
  cases queries with
  | nil => exact absurd rfl h
  | cons q qs =>
    refine ⟨fun hs => ?_, fun hs => ?_⟩ <;>
      simp only [List.headD_cons] at hs <;>
      simp [check_final_summary, hs]

theorem check_final_summary_first_query_routing_witness :
    check_final_summary [⟨"q", "s", "Reflection-based query"⟩] = "finalize_summary" ∧
    check_final_summary [⟨"q", "s", "Initial query rationale"⟩] = "reflect_on_summary" :=
  ⟨(check_final_summary_first_query_routing [⟨"q", "s", "Reflection-based query"⟩]
      (by simp)).1 (by decide),
   (check_final_summary_first_query_routing [⟨"q", "s", "Initial query rationale"⟩]
      (by simp)).2 (by decide)⟩

/-- C2: across any sequence of `web_research` batches in one run, the global
source ids assigned by the numbering loop are strictly increasing and never
reused: the ids over all batches are exactly `range' c total` (so pairwise
`<`), each batch starts numbering from the incoming `source_counter`, and
each batch returns the counter advanced by its number of citation blocks,
which seeds the next batch. -/
theorem web_research_source_ids_monotone (c : Nat) (batches : List (List String)) :
    ((runBatches c batches).1.map Prod.fst).Pairwise (· < ·) ∧
    (runBatches c batches).1.map Prod.fst
      = List.range' c ((batches.map List.length).sum) ∧
    (runBatches c batches).2 = c + (batches.map List.length).sum ∧
    ∀ c' b, (numberCitations c' b).1.map Prod.fst = List.range' c' b.length ∧
      (numberCitations c' b).2 = c' + b.length := by
  refine ⟨?_, (runBatches_spec batches c).1, (runBatches_spec batches c).2,
    fun c' b => numberCitations_spec b c'⟩
  rw [(runBatches_spec batches c).1]
  exact List.pairwise_lt_range' c _

/-- C3 counterexample: a provider response whose JSON parses but lacks the
`score` field is returned as-is by `check_relevancy`, not replaced by the
`{"score": "yes"}` default the claim promises. -/
theorem check_relevancy_missing_field_counterexample :
    check_relevancy (.parsed (.jobj [("verdict", .jstr "no")])) ≠ scoreYesDefault := by
  simp [check_relevancy, scoreYesDefault]

/-- C3 (amended): if the relevancy provider call times out or raises an
exception (which includes malformed JSON, parsed inside the guarded block),
`check_relevancy` returns `{"score": "yes"}`, and the fallback web search
for that query is consequently skipped; a successfully parsed JSON value is
returned unchanged even when it lacks the `score` field. -/
theorem check_relevancy_fail_open (outcome : LLMOutcome) (query : String)
    (tavilyResult : List WebResult)
    (h : outcome = LLMOutcome.timeout ∨ outcome = LLMOutcome.raisedError) :
    check_relevancy outcome = scoreYesDefault ∧
    process_single_query_web query true (check_relevancy outcome) tavilyResult
      = some (some "Web not searched since RAG provided relevant answer for query",
              some "") ∧
    (∀ v, check_relevancy (LLMOutcome.parsed v) = v) := by
  rcases h with h | h <;> subst h <;> exact ⟨rfl, rfl, fun _ => rfl⟩

theorem check_relevancy_fail_open_witness :
    check_relevancy LLMOutcome.timeout = scoreYesDefault ∧
    process_single_query_web "q" true (check_relevancy LLMOutcome.timeout) []
      = some (some "Web not searched since RAG provided relevant answer for query",
              some "") ∧
    (∀ v, check_relevancy (LLMOutcome.parsed v) = v) :=
  check_relevancy_fail_open LLMOutcome.timeout "q" [] (Or.inl rfl)

/-- C4 counterexample: with relevancy score `"no"` and an absent fallback
answer, the record's `<answer>` is the primary (RAG) answer — not the
fallback, and no "no answer found" placeholder record is emitted in the
sources document. -/
theorem effective_answer_counterexample :
    deduplicate_and_format_sources ["src1"] ["primary answer"]
      [.jobj [("score", .jstr "no")]] [none] [⟨"q1", "sec1", "r"⟩]
      = some [⟨"q1", "primary answer", "sec1", "src1"⟩] := rfl

/-- C4 (amended): each record of the sources document is aligned with the
same position of every input list, and its effective answer is the primary
answer when the score is `"yes"` **or the fallback answer is absent**, and
the fallback answer otherwise; the "no relevant answer found" placeholder
lives in the citation blocks built by `web_research`, not in this document. -/
theorem effective_answer_selection
    (sources gas : List String) (rels : List JsonValue)
    (fbs : List (Option String)) (qs : List GeneratedQuery)
    (out : List SourceElem)
    (hout : deduplicate_and_format_sources sources gas rels fbs qs = some out)
    (i : Nat) (hi : i < out.length) :
    ∃ rv sv ga fb q,
      rels.get? i = some rv ∧ jsonGet rv "score" = some sv ∧
      gas.get? i = some ga ∧ fbs.get? i = some fb ∧ qs.get? i = some q ∧
      (out.get ⟨i, hi⟩).query = q.query ∧
      (out.get ⟨i, hi⟩).answer
        = (if jsonIsStr sv "yes" then ga
           else match fb with | none => ga | some fbtext => fbtext) := by
  induction sources generalizing gas rels fbs qs out i with
  | nil =>
    rw [show deduplicate_and_format_sources [] gas rels fbs qs = some [] from rfl]
      at hout
    cases hout
    simp at hi
  | cons src sources ih =>
    cases gas with
    | nil =>
      rw [show deduplicate_and_format_sources (src :: sources) [] rels fbs qs
            = some [] from rfl] at hout
      cases hout; simp at hi
    | cons ga gas =>
      cases rels with
      | nil =>
        rw [show deduplicate_and_format_sources (src :: sources) (ga :: gas) []
              fbs qs = some [] from rfl] at hout
        cases hout; simp at hi
      | cons rv rels =>
        cases fbs with
        | nil =>
          rw [show deduplicate_and_format_sources (src :: sources) (ga :: gas)
                (rv :: rels) [] qs = some [] from rfl] at hout
          cases hout; simp at hi
        | cons fb fbs =>
          cases qs with
          | nil =>
            rw [show deduplicate_and_format_sources (src :: sources) (ga :: gas)
                  (rv :: rels) (fb :: fbs) [] = some [] from rfl] at hout
            cases hout; simp at hi
          | cons q qs =>
            simp only [deduplicate_and_format_sources] at hout
            cases hsc : jsonGet rv "score" with
            | none => rw [hsc] at hout; cases hout
            | some sv =>
              rw [hsc] at hout
              cases hrec : deduplicate_and_format_sources sources gas rels fbs qs with
              | none => rw [hrec] at hout; cases hout
              | some rest =>
                rw [hrec] at hout
                have hout' := (Option.some.inj hout).symm
                subst hout'
                cases i with
                | zero =>
                  exact ⟨rv, sv, ga, fb, q, rfl, hsc, rfl, rfl, rfl, rfl, rfl⟩
                | succ j =>
                  have hj : j < rest.length := by
                    simpa using hi
                  obtain ⟨rv', sv', ga', fb', q', h1, h2, h3, h4, h5, h6, h7⟩ :=
                    ih gas rels fbs qs rest hrec j hj
                  exact ⟨rv', sv', ga', fb', q', h1, h2, h3, h4, h5, h6, h7⟩

theorem effective_answer_selection_witness :
    ∃ rv sv ga fb q,
      ([JsonValue.jobj [("score", JsonValue.jstr "no")]] : List JsonValue).get? 0
          = some rv ∧
      jsonGet rv "score" = some sv ∧
      (["rag answer"] : List String).get? 0 = some ga ∧
      ([some "web answer"] : List (Option String)).get? 0 = some fb ∧
      ([⟨"q1", "sec1", "r"⟩] : List GeneratedQuery).get? 0 = some q ∧
      (([⟨"q1", "web answer", "sec1", "src1"⟩] : List SourceElem).get
        ⟨0, by simp⟩).query = q.query ∧
      (([⟨"q1", "web answer", "sec1", "src1"⟩] : List SourceElem).get
        ⟨0, by simp⟩).answer
        = (if jsonIsStr sv "yes" then ga
           else match fb with | none => ga | some fbtext => fbtext) :=
  effective_answer_selection ["src1"] ["rag answer"]
    [JsonValue.jobj [("score", JsonValue.jstr "no")]] [some "web answer"]
    [⟨"q1", "sec1", "r"⟩] [⟨"q1", "web answer", "sec1", "src1"⟩] rfl 0 (by simp)

theorem lookupTask_graph {α : Type} (g : Nat → α) :
    ∀ (perm : List Nat) (i : Nat), i ∈ perm →
      lookupTask i (perm.map fun j => (j, g j)) = some (g i) := by
  intro perm
  induction perm with
  | nil => intro i hi; cases hi
  | cons j t ih =>
    intro i hi
    by_cases hji : j = i
    · subst hji
      simp [lookupTask]
    · have : i ∈ t := by
        rcases List.mem_cons.mp hi with h | h
        · exact absurd h.symm hji
        · exact h
      simp [lookupTask, hji, ih i this]

theorem gatherCollect_go_spec {α : Type} (completed : List (Nat × α)) (g : Nat → α) :
    ∀ l : List Nat, (∀ i ∈ l, lookupTask i completed = some (g i)) →
      gatherCollect.go completed l = some (l.map g) := by
  intro l
  induction l with
  | nil => intro _; rfl
  | cons i is ih =>
    intro h
    have hhead := h i (by simp)
    have htail := ih fun x hx => h x (by simp [hx])
    simp [gatherCollect.go, hhead, htail]

theorem map_getD_range {α : Type} (f : GeneratedQuery → α) (dq : GeneratedQuery) :
    ∀ qs : List GeneratedQuery,
      (List.range qs.length).map (fun i => f (qs.getD i dq)) = qs.map f := by
  intro qs
  induction qs with
  | nil => rfl
  | cons q t ih =>
    rw [List.length_cons, List.range_succ_eq_map, List.map_cons, List.map_map]
    rw [List.map_cons]
    congr 1

/-- C5: within one `web_research` batch the per-query tasks are dispatched
concurrently, but `asyncio.gather` places the result of task `i` at position
`i`: for any completion order (any permutation of the task indices), the
collected list is exactly `queries.map f`, so the `i`-th evidence tuple
`(rag_answer, rag_citation, relevancy, web_answer, web_citation)`
corresponds to the `i`-th query of the input batch. -/
theorem research_fanout_order_preservation
    (queries : List GeneratedQuery) (dq : GeneratedQuery)
    (f : GeneratedQuery → SingleQueryResult) (perm : List Nat)
    (hperm : perm.Perm (List.range queries.length)) :
    gatherCollect queries.length
        (perm.map fun i => (i, f (queries.getD i dq)))
      = some (queries.map f) := by
  unfold gatherCollect
  rw [gatherCollect_go_spec _ (fun i => f (queries.getD i dq)) _ ?hmem]
  · rw [map_getD_range]
  case hmem =>
    intro i hi
    exact lookupTask_graph _ perm i (hperm.mem_iff.mpr hi)

theorem research_fanout_order_preservation_witness :
    gatherCollect 3
        (([2, 0, 1] : List Nat).map fun i =>
          (i, (fun q => ⟨q.query ++ "-answer", none, scoreYesDefault, none, none⟩ :
                GeneratedQuery → SingleQueryResult)
              (([⟨"q0", "s0", "r0"⟩, ⟨"q1", "s1", "r1"⟩, ⟨"q2", "s2", "r2"⟩] :
                List GeneratedQuery).getD i ⟨"", "", ""⟩)))
      = some (([⟨"q0", "s0", "r0"⟩, ⟨"q1", "s1", "r1"⟩, ⟨"q2", "s2", "r2"⟩] :
          List GeneratedQuery).map
          fun q => ⟨q.query ++ "-answer", none, scoreYesDefault, none, none⟩) := by
  have h := research_fanout_order_preservation
    [⟨"q0", "s0", "r0"⟩, ⟨"q1", "s1", "r1"⟩, ⟨"q2", "s2", "r2"⟩] ⟨"", "", ""⟩
    (fun q => ⟨q.query ++ "-answer", none, scoreYesDefault, none, none⟩)
    [2, 0, 1] (by decide)
  simpa using h

theorem joinNewline_all_empty :
    ∀ l : List String, (∀ x ∈ l, x = "") → allNewlines (joinNewline l) = true := by
  intro l
  induction l with
  | nil => intro _; rfl
  | cons s rest ih =>
    intro h
    have hs : s = "" := h s (by simp)
    subst hs
    cases rest with
    | nil => rfl
    | cons t ts =>
      have htail := ih fun x hx => h x (by simp [hx])
      show allNewlines ("" ++ "\n" ++ joinNewline (t :: ts)) = true
      simp only [allNewlines, String.data_append, List.all_append] at htail ⊢
      simp [htail]

/-- C6: in the fallback web search of `process_single_query`, only results
with `score > 0.6` contribute their content to the fallback answer and their
answer/citation block to the fallback citation — every other result
contributes the empty string — and when no result clears the threshold the
fallback answer degrades to the "No relevant result found in web search"
placeholder with the citation suppressed to `""`. -/
theorem fallback_threshold_filtering
    (query : String) (rs : List WebResult) (rel : JsonValue)
    (hscore : jsonGet rel "score" = some (JsonValue.jstr "no")) :
    (∀ i r, rs.get? i = some r → tavilyPasses r = false →
      (webAnswerEntries rs).get? i = some "" ∧
      (webCitationEntries rs).get? i = some "") ∧
    (∀ i r, rs.get? i = some r → tavilyPasses r = true →
      (webAnswerEntries rs).get? i = some r.content ∧
      (webCitationEntries rs).get? i
        = some ("\nANSWER: \n" ++ r.content ++ "\n\nCITATION: \n" ++ r.url ++ "\n")) ∧
    ((∀ r ∈ rs, tavilyPasses r = false) →
      process_single_query_web query true rel rs
        = some (some "No relevant result found in web search", some "")) := by
  refine ⟨?_, ?_, ?_⟩
  · intro i r hr hpass
    constructor
    · rw [webAnswerEntries, List.get?_map, hr]
      simp [hpass]
    · rw [webCitationEntries, List.get?_map, hr]
      simp [hpass]
  · intro i r hr hpass
    constructor
    · rw [webAnswerEntries, List.get?_map, hr]
      simp [hpass]
    · rw [webCitationEntries, List.get?_map, hr]
      simp [hpass]
  · intro hall
    have hempty : ∀ x ∈ webAnswerEntries rs, x = "" := by
      intro x hx
      simp only [webAnswerEntries, List.mem_map] at hx
      obtain ⟨r, hr, rfl⟩ := hx
      simp [hall r hr]
    have hnl := joinNewline_all_empty _ hempty
    simp [process_single_query_web, hscore, jsonIsStr, hnl]

theorem fallback_threshold_filtering_witness :
    (∀ i r, ([⟨"c0", "u0", some (9/10 : ℚ)⟩, ⟨"c1", "u1", some (1/2 : ℚ)⟩,
        ⟨"c2", "u2", some (7/10 : ℚ)⟩] : List WebResult).get? i = some r →
      tavilyPasses r = false →
      (webAnswerEntries [⟨"c0", "u0", some (9/10 : ℚ)⟩, ⟨"c1", "u1", some (1/2 : ℚ)⟩,
        ⟨"c2", "u2", some (7/10 : ℚ)⟩]).get? i = some "" ∧
      (webCitationEntries [⟨"c0", "u0", some (9/10 : ℚ)⟩, ⟨"c1", "u1", some (1/2 : ℚ)⟩,
        ⟨"c2", "u2", some (7/10 : ℚ)⟩]).get? i = some "") ∧
    (∀ i r, ([⟨"c0", "u0", some (9/10 : ℚ)⟩, ⟨"c1", "u1", some (1/2 : ℚ)⟩,
        ⟨"c2", "u2", some (7/10 : ℚ)⟩] : List WebResult).get? i = some r →
      tavilyPasses r = true →
      (webAnswerEntries [⟨"c0", "u0", some (9/10 : ℚ)⟩, ⟨"c1", "u1", some (1/2 : ℚ)⟩,
        ⟨"c2", "u2", some (7/10 : ℚ)⟩]).get? i = some r.content ∧
      (webCitationEntries [⟨"c0", "u0", some (9/10 : ℚ)⟩, ⟨"c1", "u1", some (1/2 : ℚ)⟩,
        ⟨"c2", "u2", some (7/10 : ℚ)⟩]).get? i
        = some ("\nANSWER: \n" ++ r.content ++ "\n\nCITATION: \n" ++ r.url ++ "\n")) ∧
    ((∀ r ∈ ([⟨"c0", "u0", some (9/10 : ℚ)⟩, ⟨"c1", "u1", some (1/2 : ℚ)⟩,
        ⟨"c2", "u2", some (7/10 : ℚ)⟩] : List WebResult), tavilyPasses r = false) →
      process_single_query_web "q" true (.jobj [("score", .jstr "no")])
          [⟨"c0", "u0", some (9/10 : ℚ)⟩, ⟨"c1", "u1", some (1/2 : ℚ)⟩,
           ⟨"c2", "u2", some (7/10 : ℚ)⟩]
        = some (some "No relevant result found in web search", some "")) :=
  fallback_threshold_filtering "q"
    [⟨"c0", "u0", some (9/10 : ℚ)⟩, ⟨"c1", "u1", some (1/2 : ℚ)⟩,
     ⟨"c2", "u2", some (7/10 : ℚ)⟩]
    (.jobj [("score", .jstr "no")]) rfl

theorem any_name_map (acc : List Section) (x : String) :
    (acc.map Section.name).any (fun m => m == x) = acc.any (fun s => s.name == x) := by
  induction acc with
  | nil => rfl
  | cons s t ih => simp [ih]

theorem buildSections_go (qs : List GeneratedQuery) :
    ∀ acc : List Section,
      (qs.foldl addSection acc).map Section.name
        = acc.map Section.name
          ++ dedupFirstAux (acc.map Section.name) (qs.map GeneratedQuery.report_section) ∧
      ∀ s ∈ qs.foldl addSection acc, s ∈ acc ∨
        (s.description = "" ∧ s.plan = "" ∧ s.research = false ∧ s.content = "") := by
  induction qs with
  | nil => intro acc; exact ⟨by simp [dedupFirstAux], fun s hs => Or.inl hs⟩
  | cons q qs ih =>
    intro acc
    rw [List.foldl_cons]
    by_cases h : acc.any (fun s => s.name == q.report_section) = true
    · have hadd : addSection acc q = acc := by simp [addSection, h]
      rw [hadd]
      refine ⟨?_, (ih acc).2⟩
      rw [(ih acc).1, List.map_cons]
      rw [show dedupFirstAux (acc.map Section.name)
          (q.report_section :: qs.map GeneratedQuery.report_section)
          = dedupFirstAux (acc.map Section.name) (qs.map GeneratedQuery.report_section)
        from by
          rw [dedupFirstAux, if_pos]
          rw [any_name_map]
          exact h]
    · have hadd : addSection acc q
          = acc ++ [{ name := q.report_section, description := "", plan := "",
                      research := false, content := "" }] := by
        simp only [addSection, h]
        rw [if_neg]
        simp [h]
      rw [hadd]
      constructor
      · rw [(ih _).1, List.map_cons]
        rw [show dedupFirstAux (acc.map Section.name)
            (q.report_section :: qs.map GeneratedQuery.report_section)
            = q.report_section
              :: dedupFirstAux (acc.map Section.name ++ [q.report_section])
                  (qs.map GeneratedQuery.report_section)
          from by
            rw [dedupFirstAux, if_neg]
            rw [any_name_map]
            simp [h]]
        simp
      · intro s hs
        rcases (ih _).2 s hs with hmem | hempty
        · rcases List.mem_append.mp hmem with h1 | h1
          · exact Or.inl h1
          · right
            rw [List.mem_singleton.mp h1]
            exact ⟨rfl, rfl, rfl, rfl⟩
        · exact Or.inr hempty

theorem dedupFirstAux_nodup :
    ∀ (ns seen : List String),
      (dedupFirstAux seen ns).Nodup ∧
      ∀ x ∈ dedupFirstAux seen ns, (seen.any fun m => m == x) = false := by
  intro ns
  induction ns with
  | nil => intro seen; simp [dedupFirstAux]
  | cons n t ih =>
    intro seen
    by_cases h : seen.any (fun m => m == n) = true
    · rw [show dedupFirstAux seen (n :: t) = dedupFirstAux seen t from by
        rw [dedupFirstAux, if_pos h]]
      exact ih seen
    · rw [show dedupFirstAux seen (n :: t)
          = n :: dedupFirstAux (seen ++ [n]) t from by
        rw [dedupFirstAux, if_neg h]]
      have hih := ih (seen ++ [n])
      refine ⟨List.nodup_cons.mpr ⟨?_, hih.1⟩, ?_⟩
      · intro hmem
        have := hih.2 n hmem
        simp at this
      · intro x hx
        rcases List.mem_cons.mp hx with rfl | hx'
        · exact Bool.eq_false_iff.mpr h
        · have := hih.2 x hx'
          simp only [List.any_append] at this
          exact (Bool.or_eq_false_iff.mp this).1

/-- C7: for every query batch, `web_research` produces exactly one `Section`
per distinct `report_section` name, in order of first appearance (the
section-name list equals the first-appearance deduplication of the query
section names and has no duplicates), and every created `Section` has empty
content (and empty description/plan, `research = false`). -/
theorem sections_idempotent_grouping (qs : List GeneratedQuery) :
    (buildSections qs).map Section.name
      = dedupFirstAux [] (qs.map GeneratedQuery.report_section) ∧
    ((buildSections qs).map Section.name).Nodup ∧
    ∀ s ∈ buildSections qs,
      s.description = "" ∧ s.plan = "" ∧ s.research = false ∧ s.content = "" := by
  have hgo := buildSections_go qs []
  refine ⟨?_, ?_, ?_⟩
  · simpa [buildSections] using hgo.1
  · have h1 : (buildSections qs).map Section.name
        = dedupFirstAux [] (qs.map GeneratedQuery.report_section) := by
      simpa [buildSections] using hgo.1
    rw [h1]
    exact (dedupFirstAux_nodup (qs.map GeneratedQuery.report_section) []).1
  · intro s hs
    rcases hgo.2 s hs with hmem | hempty
    · cases hmem
    · exact hempty

theorem sections_idempotent_grouping_witness :
    (buildSections [⟨"q1", "Challenges", "r1"⟩, ⟨"q2", "Challenges", "r2"⟩]).map
        Section.name
      = dedupFirstAux []
          ([⟨"q1", "Challenges", "r1"⟩, ⟨"q2", "Challenges", "r2"⟩].map
            GeneratedQuery.report_section) ∧
    ((buildSections [⟨"q1", "Challenges", "r1"⟩, ⟨"q2", "Challenges", "r2"⟩]).map
        Section.name).Nodup ∧
    ∀ s ∈ buildSections [⟨"q1", "Challenges", "r1"⟩, ⟨"q2", "Challenges", "r2"⟩],
      s.description = "" ∧ s.plan = "" ∧ s.research = false ∧ s.content = "" :=
  sections_idempotent_grouping [⟨"q1", "Challenges", "r1"⟩, ⟨"q2", "Challenges", "r2"⟩]

theorem mkReflectionQuery_rationale (p : Option JsonValue) (j : String) :
    (mkReflectionQuery p j).rationale = "Reflection-based query" := by
  rcases p with _ | v
  · rfl
  · rcases v with s | fields
    · by_cases h : strContains s "query" = true
      · simp [mkReflectionQuery, h]
      · simp [mkReflectionQuery, h]
    · rcases hq : lookupField fields "query" with _ | qv
      · simp [mkReflectionQuery, hq]
      · rcases qv with qs | qf
        · rcases hrs : lookupField fields "report_section" with _ | rv2
          · simp [mkReflectionQuery, hq, hrs]
          · rcases rv2 with a | b <;> simp [mkReflectionQuery, hq, hrs]
        · simp [mkReflectionQuery, hq]

/-- C8 counterexample: with `num_reflections = 1` and a provider output that
lacks the `</think>` delimiter, `reflect_on_summary` returns early with no
queries at all, so it does not return exactly one tagged query. -/
theorem reflection_missing_delimiter_counterexample :
    ¬ ∃ qs : List GeneratedQuery,
      reflect_on_summary ["a knowledge gap, but no delimiter"] (fun _ => none)
        = some qs ∧ qs.length = 1 := by
  rintro ⟨qs, h, -⟩
  rw [show reflect_on_summary ["a knowledge gap, but no delimiter"] (fun _ => none)
      = none from rfl] at h
  exact Option.noConfusion h

/-- C8 (amended): when every iteration's provider output contains the
`</think>` delimiter, `reflect_on_summary` runs all `num_reflections`
iterations and returns exactly one generated query per iteration, each
carrying rationale `"Reflection-based query"` whether parsed from JSON or
degraded from raw text; when some iteration's output lacks the delimiter,
the node returns early with no queries. -/
theorem reflection_rounds_and_tagging
    (outputs : List String) (parseJson : String → Option JsonValue)
    (h : ∀ s ∈ outputs, ¬ (pySplit s "</think>").length < 2) :
    ∃ qs, reflect_on_summary outputs parseJson = some qs ∧
      qs.length = outputs.length ∧
      ∀ q ∈ qs, q.rationale = "Reflection-based query" := by
  induction outputs with
  | nil => exact ⟨[], rfl, rfl, by simp⟩
  | cons result rest ih =>
    obtain ⟨qs, hqs, hlen, htag⟩ := ih fun s hs => h s (by simp [hs])
    have step : reflect_on_summary (result :: rest) parseJson
        = (if (pySplit result "</think>").length < 2 then none
           else
             match reflect_on_summary rest parseJson with
             | none => none
             | some qs =>
               some (mkReflectionQuery
                   (parseJson (pyStrip ((pySplit result "</think>").getD 1 "")))
                   (pyStrip ((pySplit result "</think>").getD 1 "")) :: qs)) := rfl
    refine ⟨mkReflectionQuery
        (parseJson (pyStrip ((pySplit result "</think>").getD 1 "")))
        (pyStrip ((pySplit result "</think>").getD 1 "")) :: qs, ?_, by simp [hlen], ?_⟩
    · rw [step, if_neg (h result (by simp)), hqs]
    · intro q hq
      rcases List.mem_cons.mp hq with rfl | hq'
      · exact mkReflectionQuery_rationale _ _
      · exact htag q hq'

theorem reflection_rounds_and_tagging_witness :
    ∃ qs, reflect_on_summary ["thinking</think> follow-up gap "] (fun _ => none)
        = some qs ∧ qs.length = 1 ∧
      ∀ q ∈ qs, q.rationale = "Reflection-based query" := by
  have h := reflection_rounds_and_tagging ["thinking</think> follow-up gap "]
    (fun _ => none)
    (by
      intro s hs
      rw [List.mem_singleton] at hs
      subst hs
      decide)
  simpa using h

theorem insertBeforeLast_spec :
    ∀ (l : List String) (x last : String), l.getLast? = some last →
      insertBeforeLast l x = l.dropLast ++ [x, last] := by
  intro l
  induction l with
  | nil => intro x last hl; cases hl
  | cons a rest ih =>
    intro x last hl
    cases rest with
    | nil =>
      have : a = last := Option.some.inj hl
      subst this
      rfl
    | cons b t =>
      rw [List.getLast?_cons_cons] at hl
      rw [show insertBeforeLast (a :: b :: t) x
          = a :: insertBeforeLast (b :: t) x from rfl]
      rw [ih x last hl]
      rfl

theorem foldl_insertBeforeLast :
    ∀ (mid l : List String) (last : String), l.getLast? = some last →
      mid.foldl insertBeforeLast l = l.dropLast ++ mid ++ [last] := by
  intro mid
  induction mid with
  | nil =>
    intro l last hl
    have hne : l ≠ [] := by intro hnil; subst hnil; cases hl
    have hlast : last = l.getLast hne := by
      have h2 := List.getLast?_eq_getLast l hne
      rw [h2] at hl
      exact (Option.some.inj hl).symm
    subst hlast
    rw [List.foldl_nil, List.append_nil]
    exact (List.dropLast_concat_getLast hne).symm
  | cons m mid ih =>
    intro l last hl
    rw [List.foldl_cons, insertBeforeLast_spec l m last hl]
    have h2 : ((l.dropLast ++ [m, last]).getLast?) = some last := by
      rw [show l.dropLast ++ [m, last] = (l.dropLast ++ [m]) ++ [last] by simp]
      exact List.getLast?_concat _
    rw [ih _ last h2]
    rw [show l.dropLast ++ [m, last] = (l.dropLast ++ [m]) ++ [last] by simp]
    rw [List.dropLast_concat]
    simp

/-- C9 counterexample: with a single-element existing report and three
drafted sections, the drafted middle is inserted **before** the sole
existing element, so the first element of the existing list does not keep
its position. -/
theorem section_merge_head_counterexample :
    mergeSections ["conclusion"] ["x", "y", "z"] = ["y", "conclusion"] ∧
    (mergeSections ["conclusion"] ["x", "y", "z"]).head? ≠ some "conclusion" := by
  decide

/-- C9 (amended): when the existing filled-sections list is non-empty and
the drafted list has more than two elements, exactly the drafted middle
elements (`updated_report[1:-1]`) are spliced in just before the last
existing element — the relative order of existing elements is preserved, the
last existing element stays last, and the first existing element stays first
whenever the existing list has at least two elements (with a single-element
existing list the middles land before that element); otherwise the drafted
contents are appended. -/
theorem section_merge_policy (existing updated : List String) :
    (∀ h : existing ≠ [], 2 < updated.length →
      mergeSections existing updated
        = existing.dropLast ++ (updated.drop 1).dropLast
            ++ [existing.getLast h] ∧
      (mergeSections existing updated).getLast? = existing.getLast? ∧
      (2 ≤ existing.length →
        (mergeSections existing updated).head? = existing.head?)) ∧
    ((existing = [] ∨ updated.length ≤ 2) →
      mergeSections existing updated = existing ++ updated) := by
  constructor
  · intro h hlen
    have hcond : existing.length ≠ 0 ∧ 2 < updated.length :=
      ⟨fun h0 => h (List.length_eq_zero.mp h0), hlen⟩
    have hmerge : mergeSections existing updated
        = ((updated.drop 1).dropLast).foldl insertBeforeLast existing := by
      rw [mergeSections, if_pos hcond]
    have hlast? := List.getLast?_eq_getLast existing h
    have hfold := foldl_insertBeforeLast ((updated.drop 1).dropLast) existing
      (existing.getLast h) hlast?
    refine ⟨by rw [hmerge, hfold], ?_, ?_⟩
    · rw [hmerge, hfold, hlast?]
      exact List.getLast?_concat _
    · intro h2
      rw [hmerge, hfold]
      rcases existing with _ | ⟨a, rest⟩
      · exact absurd rfl h
      · rcases rest with _ | ⟨b, t⟩
        · simp at h2
        · rw [show (a :: b :: t).dropLast = a :: (b :: t).dropLast from rfl]
          simp
  · intro hor
    rw [mergeSections, if_neg]
    rintro ⟨hne, hgt⟩
    rcases hor with rfl | hle
    · exact hne rfl
    · omega

theorem section_merge_policy_witness :
    mergeSections ["intro", "conclusion"] ["x", "y", "z"]
      = ["intro", "y", "conclusion"] := by
  have h := ((section_merge_policy ["intro", "conclusion"] ["x", "y", "z"]).1
    (by decide) (by decide)).1
  rw [h]
  decide

theorem buildAllCitations_length :
    ∀ (inputs : List CitationInput) (all : List String),
      buildAllCitations inputs = some all → all.length = inputs.length := by
  intro inputs
  induction inputs with
  | nil =>
    intro all h
    have : ([] : List String) = all := Option.some.inj h
    subst this
    rfl
  | cons p rest ih =>
    intro all h
    rw [buildAllCitations] at h
    cases hsc : jsonGet p.relevancy "score" with
    | none => rw [hsc] at h; cases h
    | some sv =>
      rw [hsc] at h
      cases hrec : buildAllCitations rest with
      | none => rw [hrec] at h; cases h
      | some tail =>
        rw [hrec] at h
        have := (Option.some.inj h).symm
        subst this
        have htail := ih tail hrec
        cases hy : jsonIsStr sv "yes" <;>
          cases hw : (p.citationWeb == "N/A" || p.citationWeb == "") <;>
            simp [hy, hw, htail]

/-- C10: for a `web_research` batch over `n` queries whose relevancy values
expose a `score` field, the three citation branches (relevant rag citation,
non-empty web citation, no-answer placeholder) are exhaustive and mutually
exclusive, so exactly `n` numbered citation blocks are produced, the
returned `source_counter` is the incoming counter plus `n`, and the
pre-existing citation document is preserved verbatim as a prefix of the
updated citation string. -/
theorem citation_branches_and_counter
    (inputs : List CitationInput) (counter : Nat) (existing : String)
    (all : List String) (hall : buildAllCitations inputs = some all) :
    ∃ numbered cstr counter',
      webResearchCitations counter existing inputs = some (numbered, cstr, counter') ∧
      numbered.length = inputs.length ∧
      counter' = counter + inputs.length ∧
      ∃ tail, cstr = existing ++ tail := by
  have hlen := buildAllCitations_length inputs all hall
  have hnum := numberCitations_spec all counter
  have hnlen : (numberCitations counter all).1.length = all.length := by
    have hmap := congrArg List.length hnum.1
    simpa using hmap
  have hunfold : webResearchCitations counter existing inputs
      = some ((numberCitations counter all).1,
          (if existing ≠ "" then
            existing ++ "\n" ++
              joinNewline ((numberCitations counter all).1.map Prod.snd)
          else joinNewline ((numberCitations counter all).1.map Prod.snd)),
          (numberCitations counter all).2) := by
    rw [webResearchCitations, hall]
  by_cases hex : existing = ""
  · refine ⟨(numberCitations counter all).1,
      joinNewline ((numberCitations counter all).1.map Prod.snd),
      (numberCitations counter all).2, ?_, by rw [hnlen, hlen],
      by rw [hnum.2, hlen], ?_⟩
    · rw [hunfold, if_neg (by simp [hex])]
    · refine ⟨joinNewline ((numberCitations counter all).1.map Prod.snd), ?_⟩
      subst hex
      rfl
  · refine ⟨(numberCitations counter all).1,
      existing ++ "\n" ++ joinNewline ((numberCitations counter all).1.map Prod.snd),
      (numberCitations counter all).2, ?_, by rw [hnlen, hlen],
      by rw [hnum.2, hlen], ?_⟩
    · rw [hunfold, if_pos hex]
    · exact ⟨"\n" ++ joinNewline ((numberCitations counter all).1.map Prod.snd),
        String.append_assoc _ _ _⟩

theorem citation_branches_and_counter_witness :
    ∃ numbered cstr counter',
      webResearchCitations 5 "PREV"
          [⟨"q1", "C1", .jobj [("score", .jstr "yes")], ""⟩,
           ⟨"q2", "C2", .jobj [("score", .jstr "no")], ""⟩]
        = some (numbered, cstr, counter') ∧
      numbered.length = 2 ∧ counter' = 5 + 2 ∧
      ∃ tail, cstr = "PREV" ++ tail := by
  have h := citation_branches_and_counter
    [⟨"q1", "C1", .jobj [("score", .jstr "yes")], ""⟩,
     ⟨"q2", "C2", .jobj [("score", .jstr "no")], ""⟩] 5 "PREV"
    ["C1", noAnswerBlock "q2"] rfl
  simpa using h

end Aira
